import Mathlib

/-!
# Verification of `align_test_prep.py`

A shallow embedding of the line transcoder in `align_test_prep.py`, a
Python 2 program that turns each input text file into a one-token-per-line
`.out` file: comment lines (first character `#`) become `.PARA`, every
other line is split on whitespace and each token written on its own line,
followed by a `.End of Sentence` marker line.

The embedding models:
* `unicode.splitlines` (the input is decoded by `codecs.open(..., encoding='utf-8')`,
  so line splitting uses the full Unicode line-boundary set, with `\r\n`
  counting as a single boundary);
* `unicode.split()` with no arguments (split on runs of whitespace, no
  empty tokens);
* `line.startswith('#')`;
* `os.path.basename` (POSIX: the part after the last `/`);
* the per-file loop of `main`, with the file system abstracted as a read
  oracle `String → Option String` (`none` models an `IOError` or
  `UnicodeDecodeError` when opening/decoding the input), and the sequence
  of output-file creations returned explicitly;
* the `__main__` entry point, which passes `sys.argv[1:]` to `main`
  without unpacking, so the vararg tuple `files` holds a single element
  that is itself a list.

Each `output.write(...)` call in the source appends a string that ends in
`'\n'`; `codecs.open` opens the output in binary mode, so no platform
newline translation occurs and the written strings are the file contents.
-/

namespace AlignTestPrep

/-- The Unicode line-boundary characters recognized by Python 2's
`unicode.splitlines`: LF, VT, FF, CR, FS, GS, RS, NEL, LINE SEPARATOR,
PARAGRAPH SEPARATOR. -/
def isLineBreak (c : Char) : Bool :=
  c = '\n' || c = '\x0b' || c = '\x0c' || c = '\r' || c = '\x1c' ||
  c = '\x1d' || c = '\x1e' || c = '\x85' || c = '\u2028' || c = '\u2029'

/-- `splitlines` treats the two-character sequence `\r\n` as a single line
boundary; we model this by first rewriting each `\r\n` to a single `\n`. -/
def normalizeCrLf : List Char → List Char
  | [] => []
  | [c] => [c]
  | c1 :: c2 :: rest =>
    if c1 = '\r' ∧ c2 = '\n' then '\n' :: normalizeCrLf rest
    else c1 :: normalizeCrLf (c2 :: rest)

/-- Split a character list at every single line-boundary character,
accumulating the current line in reverse in `acc`.  A trailing boundary
does not produce a spurious empty final line (Python `splitlines`
semantics). -/
def splitBreaksAux : List Char → List Char → List (List Char)
  | [], acc => if acc.isEmpty then [] else [acc.reverse]
  | c :: rest, acc =>
    if isLineBreak c then acc.reverse :: splitBreaksAux rest []
    else splitBreaksAux rest (c :: acc)

/-- Python 2 `unicode.splitlines` on the full text read from the input
file (`inpt.read().splitlines()`, line 8 of the source). -/
def splitlines (s : String) : List String :=
  (splitBreaksAux (normalizeCrLf s.data) []).map String.mk

/-- The whitespace characters of Python 2's `unicode.isspace` /
no-argument `unicode.split` (Unicode 5.2): ASCII whitespace, the C1
separators, NEL, NBSP and the Unicode space separators. -/
def isPySpace (c : Char) : Bool :=
  c = ' ' || c = '\t' || c = '\n' || c = '\x0b' || c = '\x0c' || c = '\r' ||
  c = '\x1c' || c = '\x1d' || c = '\x1e' || c = '\x1f' || c = '\x85' ||
  c = '\xa0' || c = '\u1680' || c = '\u180e' ||
  (0x2000 ≤ c.toNat && c.toNat ≤ 0x200a) ||
  c = '\u2028' || c = '\u2029' || c = '\u202f' || c = '\u205f' || c = '\u3000'

/-- Split a character list on runs of whitespace, accumulating the current
token in reverse in `acc`; leading, trailing and repeated whitespace yield
no empty tokens. -/
def splitWsAux : List Char → List Char → List (List Char)
  | [], acc => if acc.isEmpty then [] else [acc.reverse]
  | c :: rest, acc =>
    if isPySpace c then
      if acc.isEmpty then splitWsAux rest []
      else acc.reverse :: splitWsAux rest []
    else splitWsAux rest (c :: acc)

/-- Python 2 `unicode.split()` with no arguments (`line.split()`, line 16
of the source). -/
def split (s : String) : List String :=
  (splitWsAux s.data []).map String.mk

/-- `line.startswith('#')` (line 13 of the source): true exactly when the
line is nonempty and its first character is `#`. -/
def startswith_hash (s : String) : Bool :=
  match s.data with
  | [] => false
  | c :: _ => c = '#'

/-- The strings passed to `output.write` for one input line (lines 12–18
of the source): `.PARA\n` for a comment line, otherwise one
`token ++ "\n"` per token followed by `.End of Sentence\n`.  Each element
is one written output line, including its terminator. -/
def processLineWrites (line : String) : List String :=
  if startswith_hash line then [".PARA\n"]
  else (split line).map (fun w => w ++ "\n") ++ [".End of Sentence\n"]

/-- All strings written to the output file for one input file's full text:
the text is split into lines and each line contributes its writes in
order. -/
def fileWrites (text : String) : List String :=
  ((splitlines text).map processLineWrites).flatten

/-- `os.path.basename` on a POSIX path (line 9 of the source): the part of
the path after the last `/`. -/
def basename (p : String) : String :=
  String.mk ((p.data.reverse.takeWhile (fun c => c ≠ '/')).reverse)

/-- The output file name `os.path.basename(in_file) + '.out'` (line 9 of
the source); it has no directory component, so the file is created in the
current working directory. -/
def outFileName (p : String) : String :=
  basename p ++ ".out"

/-- One output-file creation: the name it is opened under and the ordered
list of strings written to it. -/
structure OutFile where
  name : String
  writes : List String
deriving DecidableEq

/-- A Python value that can appear as an element of `main`'s vararg tuple
`files`: a string, or (because the `__main__` block passes `sys.argv[1:]`
unpacked as a single argument) a list of strings. -/
inductive PyVal where
  | str : String → PyVal
  | strlist : List String → PyVal
deriving DecidableEq

/-- The per-file loop of `main(*files)` (lines 5–18 of the source), with
the file system abstracted as a read oracle.  Returns the list of output
files created, in order, and whether the loop completed (`false` means an
uncaught exception aborted the run: `open` on a non-string raises
`TypeError`; a failed read raises `IOError`/`UnicodeDecodeError`).  The
whole input is read before the output file is opened, so a failing read
creates no output file for that path. -/
def main (read : String → Option String) : List PyVal → List OutFile × Bool
  | [] => ([], true)
  | PyVal.strlist _ :: _ => ([], false)
  | PyVal.str p :: fs =>
    match read p with
    | none => ([], false)
    | some text =>
      let rest := main read fs
      (⟨outFileName p, fileWrites text⟩ :: rest.1, rest.2)

/-- `main` applied to a tuple of string paths: the intended call shape
`main(path₁, path₂, …)`. -/
def mainStr (read : String → Option String) (paths : List String) :
    List OutFile × Bool :=
  main read (paths.map PyVal.str)

/-- The `__main__` block (lines 20–21 of the source): `main(sys.argv[1:])`
passes the whole argument list as a single vararg, so `files` is a
one-element tuple containing the list itself. -/
def entryPoint (read : String → Option String) (argv : List String) :
    List OutFile × Bool :=
  main read [PyVal.strlist argv]

/-- `s` ends with the string `t`. -/
def strEndsWith (s t : String) : Bool :=
  t.data.isSuffixOf s.data

/-- Modelled from the spec: the platforms the program may run on and the
"platform's default newline convention for a freshly opened text-mode
write" that the spec refers to (LF on POSIX systems, CRLF on Windows).
The source itself has no platform-dependent behavior: `codecs.open` opens
files in binary mode, so the program always writes LF. -/
inductive Platform where
  | posix : Platform
  | windows : Platform
deriving DecidableEq

/-- Modelled from the spec: the default newline convention of a text-mode
write on each platform. -/
def defaultTextNewline : Platform → String
  | Platform.posix => "\n"
  | Platform.windows => "\r\n"

/-- A concrete read oracle used to instantiate the theorems: `good.txt`
exists and holds `The quick fox`, every other path fails to open. -/
def readEx (p : String) : Option String :=
  if p = "good.txt" then some "The quick fox" else none

/-- The text of a file consisting of the given lines, each terminated by a
`\n` character. -/
def joinLines : List String → String
  | [] => ""
  | l :: ls => l ++ "\n" ++ joinLines ls

/-! ## Helper lemmas -/

theorem normalizeCrLf_cons_ne (x : Char) (rest : List Char) (hx : x ≠ '\r') :
    normalizeCrLf (x :: rest) = x :: normalizeCrLf rest := by
  cases rest with
  | nil => rfl
  | cons c2 r => simp [normalizeCrLf, hx]

theorem normalizeCrLf_cons_cr (rest : List Char) (h : rest.head? ≠ some '\n') :
    normalizeCrLf ('\r' :: rest) = '\r' :: normalizeCrLf rest := by
  cases rest with
  | nil => rfl
  | cons c2 r =>
    have hc2 : c2 ≠ '\n' := by
      intro hc; exact h (by simp [hc])
    simp [normalizeCrLf, hc2]

theorem normalizeCrLf_append_no_cr (xs ys : List Char)
    (h : ∀ c ∈ xs, c ≠ '\r') :
    normalizeCrLf (xs ++ ys) = xs ++ normalizeCrLf ys := by
  induction xs with
  | nil => rfl
  | cons x xs ih =>
    have hx : x ≠ '\r' := h x (by simp)
    rw [List.cons_append, normalizeCrLf_cons_ne x (xs ++ ys) hx,
      ih (fun c hc => h c (by simp [hc])), List.cons_append]

theorem splitBreaksAux_append_no_break (xs : List Char) (ys acc : List Char)
    (h : ∀ c ∈ xs, isLineBreak c = false) :
    splitBreaksAux (xs ++ ys) acc = splitBreaksAux ys (xs.reverse ++ acc) := by
  induction xs generalizing acc with
  | nil => rfl
  | cons x xs ih =>
    have hx : isLineBreak x = false := h x (by simp)
    rw [List.cons_append]
    show splitBreaksAux (x :: (xs ++ ys)) acc = _
    rw [splitBreaksAux, hx]
    simp only [Bool.false_eq_true, if_false]
    rw [ih (x :: acc) (fun c hc => h c (by simp [hc]))]
    simp

theorem splitBreaksAux_break_cons (c : Char) (ys acc : List Char)
    (hc : isLineBreak c = true) :
    splitBreaksAux (c :: ys) acc = acc.reverse :: splitBreaksAux ys [] := by
  rw [splitBreaksAux, hc]
  simp

theorem no_cr_of_no_break (xs : List Char)
    (h : ∀ c ∈ xs, isLineBreak c = false) : ∀ c ∈ xs, c ≠ '\r' := by
  intro c hc hcr
  have := h c hc
  rw [hcr] at this
  simp [isLineBreak] at this

theorem mk_data (s : String) : String.mk s.data = s := rfl

theorem takeWhile_append_cons_of_neg (p : Char → Bool) (xs : List Char)
    (y : Char) (ys : List Char) (hx : ∀ c ∈ xs, p c = true) (hy : p y = false) :
    (xs ++ y :: ys).takeWhile p = xs := by
  induction xs with
  | nil => simp [List.takeWhile_cons, hy]
  | cons x xs ih =>
    rw [List.cons_append, List.takeWhile_cons, hx x (by simp),
      ih (fun c hc => hx c (by simp [hc]))]
    simp

/-! ## Claim theorems -/

/-- C1: for every input line that does not start with `#` and has `k`
whitespace-delimited tokens, `main` writes exactly `k` token lines, one
per token in left-to-right order, followed by exactly one
`.End of Sentence` line, `k + 1` written lines in total. -/
theorem noncomment_line_token_writes (line : String)
    (h : startswith_hash line = false) :
    processLineWrites line =
      (split line).map (fun w => w ++ "\n") ++ [".End of Sentence\n"] ∧
    (processLineWrites line).length = (split line).length + 1 := by
  refine ⟨by simp [processLineWrites, h], ?_⟩
  simp [processLineWrites, h]

theorem noncomment_line_token_writes_witness :
    startswith_hash "The quick fox" = false ∧
    split "The quick fox" = ["The", "quick", "fox"] ∧
    processLineWrites "The quick fox" =
      (split "The quick fox").map (fun w => w ++ "\n") ++
        [".End of Sentence\n"] :=
  ⟨by decide, by decide,
    (noncomment_line_token_writes "The quick fox" (by decide)).1⟩

/-- C2: for every input line whose first character is `#`, `main` writes
exactly one line for it, the literal `.PARA`, and nothing else from that
source line. -/
theorem comment_line_collapses_to_para (line : String)
    (h : line.data.head? = some '#') :
    processLineWrites line = [".PARA\n"] := by
  cases hd : line.data with
  | nil => rw [hd] at h; simp at h
  | cons c r =>
    rw [hd] at h
    have hc : c = '#' := by simpa using h
    have hs : startswith_hash line = true := by
      simp [startswith_hash, hd, hc]
    simp [processLineWrites, hs]

theorem comment_line_collapses_to_para_witness :
    ("# Title" : String).data.head? = some '#' ∧
    processLineWrites "# Title" = [".PARA\n"] :=
  ⟨by decide, comment_line_collapses_to_para "# Title" (by decide)⟩

/-- C4: the empty line is not a comment (`startswith('#')` is false),
yields zero tokens, and produces exactly one output line,
`.End of Sentence`. -/
theorem empty_line_yields_eos_only :
    startswith_hash "" = false ∧ split "" = [] ∧
    processLineWrites "" = [".End of Sentence\n"] := by
  refine ⟨by decide, by decide, by decide⟩

/-- C5: the output file name is the final path component of the input
path with `.out` appended and no directory prefix: for any directory
prefix `dir` and slash-free base name `name`, the input path
`dir ++ "/" ++ name` yields the output name `name ++ ".out"`. -/
theorem out_file_name_basename_dot_out (dir name : String)
    (h : '/' ∉ name.data) :
    outFileName (dir ++ "/" ++ name) = name ++ ".out" := by
  have hslash : (("/" : String)).data = ['/'] := rfl
  have hd : (dir ++ "/" ++ name).data = dir.data ++ '/' :: name.data := by
    rw [String.data_append, String.data_append, hslash]
    simp
  unfold outFileName basename
  rw [hd, List.reverse_append]
  have hrev : ('/' :: name.data).reverse = name.data.reverse ++ ['/'] := by
    simp
  rw [hrev, List.append_assoc, List.singleton_append]
  rw [takeWhile_append_cons_of_neg _ _ _ _
    (fun c hc => by
      simp only [decide_eq_true_eq]
      intro hcs
      exact h (by rw [← hcs]; exact List.mem_reverse.mp hc))
    (by simp)]
  rw [List.reverse_reverse, mk_data]

theorem out_file_name_basename_dot_out_witness :
    '/' ∉ ("sample.txt" : String).data ∧
    outFileName ("dir" ++ "/" ++ "sample.txt") = "sample.txt" ++ ".out" ∧
    outFileName "dir/sample.txt" = "sample.txt.out" :=
  ⟨by decide, out_file_name_basename_dot_out "dir" "sample.txt" (by decide),
    by decide⟩

/-- C6: a path whose read fails (the file cannot be opened or decoded)
aborts the run uncaught, and — the whole input being read before the
output file is opened — creates no output file for that path: the run's
output files are exactly those of the paths before it. -/
theorem failed_read_aborts_without_output (read : String → Option String)
    (pre post : List String) (f : String) (h : read f = none) :
    (mainStr read (pre ++ f :: post)).1 = (mainStr read pre).1 ∧
    (mainStr read (pre ++ f :: post)).2 = false := by
  induction pre with
  | nil => simp [mainStr, main, h]
  | cons p pre ih =>
    cases hr : read p with
    | none => simp [mainStr, main, hr]
    | some t =>
      unfold mainStr at ih ⊢
      simp only [List.map_append, List.map_cons] at ih ⊢
      simp only [List.cons_append, main, hr]
      exact ⟨by simp [ih.1], ih.2⟩

theorem failed_read_aborts_without_output_witness :
    readEx "bad.txt" = none ∧
    (mainStr readEx ["good.txt", "bad.txt"]).1 =
      (mainStr readEx ["good.txt"]).1 ∧
    (mainStr readEx ["good.txt", "bad.txt"]).2 = false :=
  ⟨by decide,
    (failed_read_aborts_without_output readEx ["good.txt"] [] "bad.txt"
      (by decide)).1,
    (failed_read_aborts_without_output readEx ["good.txt"] [] "bad.txt"
      (by decide)).2⟩

/-- C7: the input text is split with universal newline semantics and a
trailing newline yields no spurious empty final line: a text made of
newline-terminated lines splits back into exactly those lines, and the
empty text yields zero lines and an empty output file. -/
theorem splitlines_no_spurious_final_line (ls : List String)
    (h : ∀ l ∈ ls, ∀ c ∈ l.data, isLineBreak c = false) :
    splitlines (joinLines ls) = ls ∧
    splitlines "" = [] ∧ fileWrites "" = [] := by
  refine ⟨?_, by decide, by decide⟩
  induction ls with
  | nil => decide
  | cons l ls ih =>
    have hl : ∀ c ∈ l.data, isLineBreak c = false := h l (by simp)
    have hrest := ih (fun l' hl' => h l' (by simp [hl']))
    have hnl : (("\n" : String)).data = ['\n'] := rfl
    have hdata : (joinLines (l :: ls)).data =
        l.data ++ '\n' :: (joinLines ls).data := by
      show (l ++ "\n" ++ joinLines ls).data = _
      rw [String.data_append, String.data_append, hnl]
      simp
    unfold splitlines at hrest ⊢
    rw [hdata, normalizeCrLf_append_no_cr _ _ (no_cr_of_no_break _ hl),
      normalizeCrLf_cons_ne '\n' _ (by decide),
      splitBreaksAux_append_no_break _ _ _ hl,
      splitBreaksAux_break_cons '\n' _ _ (by decide)]
    simp only [List.append_nil, List.reverse_reverse, List.map_cons, mk_data]
    rw [hrest]

theorem splitlines_no_spurious_final_line_witness :
    (∀ l ∈ ["#intro", "Hello world"],
      ∀ c ∈ String.data l, isLineBreak c = false) ∧
    splitlines (joinLines ["#intro", "Hello world"]) =
      ["#intro", "Hello world"] ∧
    joinLines ["#intro", "Hello world"] = "#intro\nHello world\n" :=
  ⟨by decide,
    (splitlines_no_spurious_final_line ["#intro", "Hello world"]
      (by decide)).1,
    by decide⟩

/-- C8: when every read succeeds, `main` creates exactly one output file
per input path, in order, named by `outFileName` (so `n` paths yield `n`
file creations, colliding names overwriting), and completes the run; a
file is created even for an empty input. -/
theorem one_output_file_per_path (read : String → Option String)
    (paths : List String) (h : ∀ f ∈ paths, (read f).isSome) :
    (mainStr read paths).1.map OutFile.name = paths.map outFileName ∧
    (mainStr read paths).1.length = paths.length ∧
    (mainStr read paths).2 = true := by
  induction paths with
  | nil => exact ⟨rfl, rfl, rfl⟩
  | cons p ps ih =>
    have hp := h p (by simp)
    cases hr : read p with
    | none => rw [hr] at hp; simp at hp
    | some t =>
      have hrest := ih (fun f hf => h f (by simp [hf]))
      unfold mainStr at hrest ⊢
      simp only [List.map_cons, main, hr]
      exact ⟨by simp [hrest.1], by simp [hrest.2.1], hrest.2.2⟩

theorem one_output_file_per_path_witness :
    (∀ f ∈ ["good.txt"], (readEx f).isSome) ∧
    (mainStr readEx ["good.txt"]).1.map OutFile.name =
      ["good.txt"].map outFileName ∧
    (mainStr readEx ["good.txt"]).1.length = 1 ∧
    (mainStr readEx ["good.txt"]).2 = true :=
  ⟨by decide,
    (one_output_file_per_path readEx ["good.txt"] (by decide)).1,
    (one_output_file_per_path readEx ["good.txt"] (by decide)).2.1,
    (one_output_file_per_path readEx ["good.txt"] (by decide)).2.2⟩

theorem isSuffixOf_lf_append (xs : List Char) :
    List.isSuffixOf ['\n'] (xs ++ ['\n']) = true := by
  simp [List.isSuffixOf, List.isPrefixOf]

/-- C9 (counterexample): the written `.PARA` line is terminated by `\n`
alone, which is not the default text-mode newline of every platform: on
Windows the default is `\r\n`.  (`codecs.open` opens the output in binary
mode, so no platform newline translation is applied.) -/
theorem written_line_not_platform_newline :
    processLineWrites "# Title" = [".PARA\n"] ∧
    strEndsWith ".PARA\n" (defaultTextNewline Platform.windows) = false := by
  refine ⟨by decide, by decide⟩

/-- C9 (amended): every string written to an output file (a token line,
`.PARA`, or `.End of Sentence`) is terminated by the single character
`\n`, on every platform. -/
theorem written_lines_end_with_lf (line w : String)
    (h : w ∈ processLineWrites line) :
    strEndsWith w "\n" = true := by
  unfold processLineWrites at h
  cases hs : startswith_hash line with
  | true =>
    rw [hs, if_pos rfl] at h
    have : w = ".PARA\n" := by simpa using h
    rw [this]; decide
  | false =>
    rw [hs] at h
    simp only [Bool.false_eq_true, if_false] at h
    rcases List.mem_append.mp h with hm | hm
    · rcases List.mem_map.mp hm with ⟨t, _, ht⟩
      rw [← ht]
      unfold strEndsWith
      rw [String.data_append]
      have hnl : (("\n" : String)).data = ['\n'] := rfl
      rw [hnl]
      exact isSuffixOf_lf_append t.data
    · have : w = ".End of Sentence\n" := by simpa using hm
      rw [this]; decide

theorem written_lines_end_with_lf_witness :
    ("fox\n" ∈ processLineWrites "The quick fox") ∧
    strEndsWith "fox\n" "\n" = true :=
  ⟨by decide, written_lines_end_with_lf "The quick fox" "fox\n" (by decide)⟩

/-- C10: line splitting is not limited to `\n` and `\r\n`: any Unicode
line-boundary character recognized by Python's `unicode.splitlines`
(`\r`, `\v`, `\f`, `U+0085`, `U+2028`, `U+2029`, …) inside a text breaks
it there, so `main` processes the two sides as separate lines (a lone
`\r` only, provided it is not the first half of a `\r\n` pair). -/
theorem unicode_boundary_breaks_line (a b : String) (c : Char)
    (ha : ∀ x ∈ a.data, isLineBreak x = false)
    (hc : isLineBreak c = true)
    (hcr : c = '\r' → b.data.head? ≠ some '\n') :
    splitlines (a ++ String.mk [c] ++ b) = a :: splitlines b ∧
    fileWrites (a ++ String.mk [c] ++ b) =
      processLineWrites a ++ fileWrites b := by
  have hdata : (a ++ String.mk [c] ++ b).data = a.data ++ c :: b.data := by
    rw [String.data_append, String.data_append]
    simp
  have hnc : normalizeCrLf (c :: b.data) = c :: normalizeCrLf b.data := by
    rcases Decidable.em (c = '\r') with hcr' | hcr'
    · rw [hcr']
      exact normalizeCrLf_cons_cr _ (hcr hcr')
    · exact normalizeCrLf_cons_ne _ _ hcr'
  have hsplit : splitlines (a ++ String.mk [c] ++ b) = a :: splitlines b := by
    unfold splitlines
    rw [hdata, normalizeCrLf_append_no_cr _ _ (no_cr_of_no_break _ ha), hnc,
      splitBreaksAux_append_no_break _ _ _ ha,
      splitBreaksAux_break_cons _ _ _ hc]
    simp only [List.append_nil, List.reverse_reverse, List.map_cons, mk_data]
  refine ⟨hsplit, ?_⟩
  unfold fileWrites
  rw [hsplit]
  simp

theorem unicode_boundary_breaks_line_witness :
    isLineBreak '\x0b' = true ∧
    splitlines ("one" ++ String.mk ['\x0b'] ++ "two") =
      "one" :: splitlines "two" ∧
    splitlines "one\x0btwo" = ["one", "two"] :=
  ⟨by decide,
    (unicode_boundary_breaks_line "one" "two" '\x0b' (by decide) (by decide)
      (by decide)).1,
    by decide⟩

/-- C3 (code-bug evaluation): the `__main__` block passes `sys.argv[1:]`
to `main` without unpacking, so `main`'s vararg tuple holds the whole
argument list as its single element; `open` on a list raises `TypeError`,
processing zero paths and creating no output file even though the path is
readable — whereas `main` called with the path unpacked, as the claim
describes, processes it. -/
theorem entry_point_processes_no_path :
    entryPoint readEx ["good.txt"] = ([], false) ∧
    mainStr readEx ["good.txt"] =
      ([⟨"good.txt.out",
         ["The\n", "quick\n", "fox\n", ".End of Sentence\n"]⟩], true) := by
  refine ⟨rfl, by decide⟩

end AlignTestPrep
